import Mathlib

/-!
Verification of the binary log codec and signal decoder of the
esp32-4runner-canbus repository.

The Python sources `analysis/bin_to_csv.py`, `scripts/decode_with_obdb.py`
and `scripts/convert_csv_to_bin.py` are embedded shallowly: byte strings
become `List Nat` (each element an octet value), Python `int` becomes
`Int`/`Nat`, Python `float` becomes `ℚ`, fallible paths return `Option`
or `Except`.
-/

/-- Little-endian value of a byte list: byte 0 is least significant.
Mirrors `struct.unpack` with format `<` for an integer field. -/
def leNat (bs : List Nat) : Nat :=
  bs.foldr (fun b acc => b + 256 * acc) 0

/-- Read `w` bytes from the front of a stream as a little-endian integer,
returning the value and the rest of the stream.  This models one field of
a sequential `struct.unpack`. -/
def readLE (w : Nat) (s : List Nat) : Nat × List Nat :=
  (leNat (s.take w), s.drop w)

/-- Read `w` raw bytes from the front of a stream (a `struct` `s` field). -/
def readBytes (w : Nat) (s : List Nat) : List Nat × List Nat :=
  (s.take w, s.drop w)

/- ---------------------------------------------------------------------
   analysis/bin_to_csv.py
   --------------------------------------------------------------------- -/

/-- `HEADER_SIZE` in `bin_to_csv.py`. -/
def HEADER_SIZE : Nat := 64

/-- `RECORD_SIZE` in `bin_to_csv.py`. -/
def RECORD_SIZE : Nat := 24

/-- `MAGIC_PREFIX = b"CANBIN\x00"` in `bin_to_csv.py` (7 bytes). -/
def MAGIC_HEAD : List Nat := [67, 65, 78, 66, 73, 78, 0]

/-- `VERSION = 1` in `bin_to_csv.py`. -/
def VERSION : Nat := 1

/-- The header dictionary returned by `parse_header`. -/
structure CaptureHeader where
  log_start_unix_us : Nat
  log_start_monotonic_us : Nat
  flags : Nat
  deriving Repr, DecidableEq

/-- `parse_header(data)` from `bin_to_csv.py`: length check, sequential
`struct.unpack("<8sHHQQII28s", data[:64])`, then the magic, version,
header-size and record-size checks; errors carry the `ValueError`
message head. -/
def parse_header (data : List Nat) : Except String CaptureHeader :=
  if data.length < HEADER_SIZE then
    .error "File too small for header"
  else
    let s0 := data.take HEADER_SIZE
    let (magic, s1) := readBytes 8 s0
    let (version, s2) := readLE 2 s1
    let (header_size, s3) := readLE 2 s2
    let (log_start_unix_us, s4) := readLE 8 s3
    let (log_start_mono_us, s5) := readLE 8 s4
    let (record_size, s6) := readLE 4 s5
    let (flags, _) := readLE 4 s6
    if magic.take 7 ≠ MAGIC_HEAD then
      .error "Bad magic"
    else if version ≠ VERSION then
      .error "Unsupported version"
    else if header_size ≠ HEADER_SIZE then
      .error "Unexpected header size"
    else if record_size ≠ RECORD_SIZE then
      .error "Unexpected record size"
    else
      .ok ⟨log_start_unix_us, log_start_mono_us, flags⟩

/-- One record of the capture container, as unpacked by `convert_file`. -/
structure CaptureRecord where
  timestamp_us : Nat
  can_id : Nat
  dlc : Nat
  flags : Nat
  payload : List Nat
  reserved : Nat
  deriving Repr, DecidableEq

/-- `struct.unpack(RECORD_FMT, rec)` with `RECORD_FMT = "<QIBB8sH"` from
`bin_to_csv.py`: a sequential read of u64, u32, u8, u8, 8 raw bytes, u16. -/
def unpackRecord (rec : List Nat) : CaptureRecord :=
  let (timestamp_us, s1) := readLE 8 rec
  let (can_id, s2) := readLE 4 s1
  let (dlc, s3) := readLE 1 s2
  let (flags, s4) := readLE 1 s3
  let (payload, s5) := readBytes 8 s4
  let (reserved, _) := readLE 2 s5
  ⟨timestamp_us, can_id, dlc, flags, payload, reserved⟩

/-- `format_datetime` from `bin_to_csv.py`, up to `strftime`: the empty
string becomes `none`, and a formatted date becomes `some seconds_int`
(the integer passed to `datetime.fromtimestamp`; the memo cache only
caches `strftime`'s output keyed by this same integer, so it is dropped
from the pure model). -/
def format_datetime (log_start_unix_us log_start_mono_us timestamp_us : Nat) :
    Option Nat :=
  if log_start_unix_us = 0 then
    none
  else
    let unix_us :=
      if timestamp_us < log_start_mono_us then
        log_start_unix_us
      else
        log_start_unix_us + (timestamp_us - log_start_mono_us)
    some (unix_us / 1000000)

/-- The record-slicing step of one iteration of `convert_file`'s loop:
`record_count = len(data) // RECORD_SIZE`, the records
`data[i*RECORD_SIZE:(i+1)*RECORD_SIZE]` for `i in range(record_count)`,
and `leftover = data[record_count*RECORD_SIZE:]`. -/
def sliceRecords (data : List Nat) : List (List Nat) × List Nat :=
  let record_count := data.length / RECORD_SIZE
  ((List.range record_count).map
      (fun i => (data.drop (i * RECORD_SIZE)).take RECORD_SIZE),
    data.drop (record_count * RECORD_SIZE))

/-- The chunked loop of `convert_file`, over an arbitrary chunking of the
record stream: each chunk is prepended with the previous leftover, whole
records are sliced off, and the final leftover is returned. -/
def convertLoop : List Nat → List (List Nat) → List (List Nat) × List Nat
  | leftover, [] => ([], leftover)
  | leftover, c :: cs =>
      let data := leftover ++ c
      let r := sliceRecords data
      let rest := convertLoop r.2 cs
      (r.1 ++ rest.1, rest.2)

/-- `convert_file`'s record phase: the records written and the truncation
warning (`some n` models the `Warning: ignoring n trailing bytes` message,
printed exactly when the final leftover is non-empty). -/
def convert_file_records (chunks : List (List Nat)) :
    List (List Nat) × Option Nat :=
  let r := convertLoop [] chunks
  (r.1, if r.2.isEmpty then none else some r.2.length)

/- ---------------------------------------------------------------------
   scripts/decode_with_obdb.py
   --------------------------------------------------------------------- -/

/-- The 8-character binary rendering `f'{b:08b}'` of one byte, as a list
of bits, most significant first (exact for `b < 256`). -/
def byteBits (b : Nat) : List Bool :=
  (List.range 8).map (fun j => b.testBit (7 - j))

/-- `int(value_bits, 2)`: the value of a bit string, MSB first. -/
def bitsVal (bs : List Bool) : Nat :=
  bs.foldl (fun acc b => 2 * acc + (if b then 1 else 0)) 0

/-- `extract_bits(data_bytes, bix, length, signed)` from
`decode_with_obdb.py`: build the concatenated bit string, return `none`
when `bix + length` overruns it, otherwise take the slice
`bit_string[bix:bix+length]`, read it in base 2, and subtract
`1 << length` when `signed` and the value is `≥ 1 << (length - 1)`. -/
def extract_bits (data_bytes : List Nat) (bix length : Nat)
    (signed : Bool) : Option Int :=
  let bit_string := (data_bytes.map byteBits).flatten
  if bix + length > bit_string.length then
    none
  else
    let value := bitsVal ((bit_string.drop bix).take length)
    if signed ∧ value ≥ 2 ^ (length - 1) then
      some ((value : Int) - 2 ^ length)
    else
      some (value : Int)

/-- One signal definition dictionary (`bix`/`len`/`add`/`mul`/`div`/
`sign`/`unit`/`name`); an absent optional key is `none`. -/
structure SignalDef where
  name : String
  bix : Nat
  len : Nat
  add : Option ℚ
  mul : Option ℚ
  div : Option ℚ
  sign : Bool
  unit : String

/-- The dictionary returned by `decode_signal`. -/
structure DecodedSignal where
  raw : Int
  value : ℚ
  unit : String
  name : String
  deriving DecidableEq

/-- `decode_signal(data_bytes, signal_def)` from `decode_with_obdb.py`:
extract the raw value, then apply `add`, `mul`, `div` in that order,
each skipped when unset (Python floats are modelled by `ℚ`). -/
def decode_signal (data_bytes : List Nat) (sd : SignalDef) :
    Option DecodedSignal :=
  match extract_bits data_bytes sd.bix sd.len sd.sign with
  | none => none
  | some raw =>
    let v0 : ℚ := (raw : ℚ)
    let v1 := match sd.add with | some a => v0 + a | none => v0
    let v2 := match sd.mul with | some m => v1 * m | none => v1
    let v3 := match sd.div with | some d => v2 / d | none => v2
    some ⟨raw, v3, sd.unit, sd.name⟩

/-- One entry of a CAN-id definition map (`name`/`signals`/`source`). -/
structure MsgDef where
  name : String
  signals : List SignalDef
  source : String

/-- `merge_signal_definitions` from `decode_with_obdb.py`, as a map
merge: built-in entries are kept, and for each id also present in the
OBDb map the signal lists are concatenated (built-in first), the name
falls back to the OBDb name only when the built-in name is falsy, and
the source becomes `existing_source + "+obdb"`; ids present only in the
OBDb map are inserted unchanged. -/
def merge_signal_definitions (manual obdb : Nat → Option MsgDef) :
    Nat → Option MsgDef := fun cid =>
  match manual cid, obdb cid with
  | some m, some o =>
      some ⟨if m.name = "" then o.name else m.name,
            m.signals ++ o.signals,
            m.source ++ "+obdb"⟩
  | some m, none => some m
  | none, some o => some o
  | none, none => none

/-- The dictionary returned by `decode_message`. -/
structure DecodedMessage where
  name : String
  signals : List DecodedSignal

/-- `decode_message(can_id, data_bytes)` from `decode_with_obdb.py`:
`none` for an unknown id, otherwise every signal definition of the id is
decoded in order and the successful results are collected. -/
def decode_message (defs : Nat → Option MsgDef) (can_id : Nat)
    (data_bytes : List Nat) : Option DecodedMessage :=
  match defs can_id with
  | none => none
  | some d =>
      some ⟨d.name,
        d.signals.foldl
          (fun acc sd =>
            match decode_signal data_bytes sd with
            | some r => acc ++ [r]
            | none => acc)
          []⟩

/- Python's `int(s)` / `int(s, 16)` on the string forms occurring here:
optional surrounding whitespace, an optional sign, then a non-empty run
of digits of the base. -/

/-- Whitespace stripped by Python `str.strip()` and tolerated by
`int()`. -/
def isBlank (c : Char) : Bool := c = ' ' ∨ c = '\t' ∨ c = '\n' ∨ c = '\r'

/-- Python `str.strip()` (also applied by `int()` to its argument). -/
def pyStrip (s : String) : String :=
  ⟨((s.data.dropWhile isBlank).reverse.dropWhile isBlank).reverse⟩

/-- Value of one decimal digit character. -/
def decDigit (c : Char) : Option Nat :=
  if c.isDigit then some (c.toNat - 48) else none

/-- Value of one hexadecimal digit character. -/
def hexDigit (c : Char) : Option Nat :=
  if c.isDigit then some (c.toNat - 48)
  else if 'a' ≤ c ∧ c ≤ 'f' then some (c.toNat - 87)
  else if 'A' ≤ c ∧ c ≤ 'F' then some (c.toNat - 55)
  else none

/-- Value of a non-empty digit run, `none` on an empty or non-digit run. -/
def digitsVal (dv : Char → Option Nat) (base : Nat) (cs : List Char) :
    Option Nat :=
  if cs.isEmpty then none
  else
    cs.foldl
      (fun acc c =>
        match acc, dv c with
        | some a, some d => some (base * a + d)
        | _, _ => none)
      (some 0)

/-- Shared shape of Python `int(s, base)`: trim, optional sign, digits. -/
def pyIntOfDigits (dv : Char → Option Nat) (base : Nat) (s : String) :
    Option Int :=
  match (pyStrip s).data with
  | '-' :: rest => (digitsVal dv base rest).map (fun n => -(n : Int))
  | '+' :: rest => (digitsVal dv base rest).map (fun n => (n : Int))
  | cs => (digitsVal dv base cs).map (fun n => (n : Int))

/-- Python `int(s)` (base 10). -/
def pyIntDec (s : String) : Option Int := pyIntOfDigits decDigit 10 s

/-- Python `int(s, 16)`. -/
def pyIntHex (s : String) : Option Int := pyIntOfDigits hexDigit 16 s

/-- Python list slicing `l[:k]`: for `k < 0` it keeps
`max(len(l) + k, 0)` leading elements. -/
def pySlice (l : List Int) (k : Int) : List Int :=
  if 0 ≤ k then l.take k.toNat
  else l.take ((l.length : Int) + k).toNat

/-- The uniform frame dictionary (`id`/`dlc`/`data`) produced by the
three parsing paths of `decode_with_obdb.py`. -/
structure Frame where
  id : Int
  dlc : Int
  data : List Int
  deriving DecidableEq, Repr

/-- A CSV row as seen through `row.get(...)`: `none` is an absent column. -/
structure CsvRow where
  timestamp_us : Option String
  can_id : Option String
  dlc : Option String
  byteField : Nat → Option String

/-- The byte loop shared verbatim by `parse_csv_row`
(`decode_with_obdb.py`) and `convert` (`convert_csv_to_bin.py`): for
each of `byte0..byte7`, an absent or blank field is 0; otherwise the
field is parsed as hex, then as decimal, and defaults to 0. -/
def csvByteVals (row : CsvRow) : List Int :=
  (List.range 8).map (fun i =>
    let val := pyStrip ((row.byteField i).getD "")
    if val = "" then 0
    else
      match pyIntHex val with
      | some v => v
      | none =>
        match pyIntDec val with
        | some v => v
        | none => 0)

/-- `parse_csv_row(row)` from `decode_with_obdb.py`: `can_id` is parsed
as hex and `dlc` as decimal (an absent `dlc` column defaults to 0); any
failure there returns `none`; the eight byte fields are collected with
defaults and the payload is `data_bytes[:dlc]` with Python slice
semantics. -/
def parse_csv_row (row : CsvRow) : Option Frame :=
  match pyIntHex (pyStrip (row.can_id.getD "")),
        (match row.dlc with | none => some (0 : Int) | some s => pyIntDec s) with
  | some can_id, some dlc =>
      some ⟨can_id, dlc, pySlice (csvByteVals row) dlc⟩
  | _, _ => none

/-- `parse_can_message(line)` from `decode_with_obdb.py`, after a
successful regex match: `can_id` is the hex id group, `dlc` the decimal
DLC group (hence a natural number), `tokens` the hex integers parsed
from the whitespace-split data group; the code keeps
`data_str.split()[:8]` and then slices `[:dlc]`. -/
def parse_can_message (can_id : Nat) (dlc : Nat) (tokens : List Nat) :
    Frame :=
  let data_bytes := tokens.take 8
  ⟨(can_id : Int), (dlc : Int), (data_bytes.map Int.ofNat).take dlc⟩

/-- One record of `parse_bin_records` from `decode_with_obdb.py`:
`struct.unpack('<QHB8B', chunk)` on a full 19-byte chunk, the timestamp
discarded, payload `data_bytes[:dlc]`. -/
def parse_bin_record (rec : List Nat) : Frame :=
  let (_, s1) := readLE 8 rec
  let (can_id, s2) := readLE 2 s1
  let (dlc, s3) := readLE 1 s2
  let data_bytes := s3.take 8
  ⟨(can_id : Int), (dlc : Int), (data_bytes.map Int.ofNat).take dlc⟩

/- ---------------------------------------------------------------------
   scripts/convert_csv_to_bin.py
   --------------------------------------------------------------------- -/

/-- One packed 19-byte record of `convert_csv_to_bin.py`, kept at field
level. -/
structure CompactRecord where
  timestamp_us : Int
  can_id : Int
  dlc : Int
  bytes : List Int
  deriving DecidableEq

/-- `RECORD_STRUCT.pack(timestamp, can_id, dlc, *data_bytes[:8])` with
format `<QHB8B`: `struct.error` when a field is out of its unsigned
range. -/
def packCompact (ts can_id dlc : Int) (bs : List Int) :
    Except String CompactRecord :=
  if 0 ≤ ts ∧ ts < 2 ^ 64 ∧ 0 ≤ can_id ∧ can_id < 2 ^ 16 ∧
      0 ≤ dlc ∧ dlc < 2 ^ 8 ∧ ∀ b ∈ bs, 0 ≤ b ∧ b < 2 ^ 8 then
    .ok ⟨ts, can_id, dlc, bs⟩
  else
    .error "struct.error"

/-- The `try` block of `convert`'s row loop in `convert_csv_to_bin.py`:
`timestamp_us` parses as decimal (absent column → 0), `can_id` as hex
(absent column → "0"), `dlc` as decimal (absent column → 0); any
exception yields `none`. -/
def convertRowHeader (row : CsvRow) : Option (Int × Int × Int) :=
  match (match row.timestamp_us with | none => some (0 : Int) | some s => pyIntDec s),
        pyIntHex (row.can_id.getD "0"),
        (match row.dlc with | none => some (0 : Int) | some s => pyIntDec s) with
  | some ts, some cid, some dlc => some (ts, cid, dlc)
  | _, _, _ => none

/-- One iteration of `convert`'s row loop in `convert_csv_to_bin.py`: a
header parse failure skips the row (`continue`, i.e. `.ok none`);
otherwise the byte fields are collected with defaults and the record is
packed. -/
def convertRow (row : CsvRow) : Except String (Option CompactRecord) :=
  match convertRowHeader row with
  | some (ts, cid, dlc) =>
      (packCompact ts cid dlc (csvByteVals row)).map some
  | none => .ok none

/-- `convert` from `convert_csv_to_bin.py` over the parsed rows: records
of unskipped rows in order; an uncaught `struct.error` aborts. -/
def convert : List CsvRow → Except String (List CompactRecord)
  | [] => .ok []
  | row :: rest =>
    match convertRow row with
    | .error e => .error e
    | .ok none => convert rest
    | .ok (some rec) => (convert rest).map (fun rs => rec :: rs)

/- ---------------------------------------------------------------------
   Helper lemmas: bit strings and their values
   --------------------------------------------------------------------- -/

/-- Spec-side reading of C1: the unsigned integer formed by concatenating
the payload bytes most-significant-byte first. -/
def beNat (bs : List Nat) : Nat :=
  bs.foldl (fun acc b => 256 * acc + b) 0

theorem bitsVal_foldl (a : Nat) (bs : List Bool) :
    bs.foldl (fun acc b => 2 * acc + (if b then 1 else 0)) a =
      a * 2 ^ bs.length + bitsVal bs := by
  induction bs generalizing a with
  | nil => simp [bitsVal]
  | cons x xs ih =>
      simp only [List.foldl_cons, bitsVal, List.length_cons]
      rw [ih, ih (2 * 0 + if x then 1 else 0)]
      ring

theorem bitsVal_append (xs ys : List Bool) :
    bitsVal (xs ++ ys) = bitsVal xs * 2 ^ ys.length + bitsVal ys := by
  simp only [bitsVal, List.foldl_append]
  rw [bitsVal_foldl]
  rfl

theorem bitsVal_lt (bs : List Bool) : bitsVal bs < 2 ^ bs.length := by
  induction bs with
  | nil => simp [bitsVal]
  | cons x xs ih =>
      have h : bitsVal (x :: xs) =
          (if x then 1 else 0) * 2 ^ xs.length + bitsVal xs := by
        have := bitsVal_append [x] xs
        simpa [bitsVal] using this
      rw [h]
      have hx : (if x then 1 else 0) ≤ 1 := by split <;> simp
      calc (if x then 1 else 0) * 2 ^ xs.length + bitsVal xs
          < (if x then 1 else 0) * 2 ^ xs.length + 2 ^ xs.length := by omega
        _ ≤ 1 * 2 ^ xs.length + 2 ^ xs.length := by
            have := Nat.mul_le_mul_right (2 ^ xs.length) hx
            omega
        _ = 2 ^ (xs.length + 1) := by ring
        _ = 2 ^ (x :: xs).length := by simp

/-- Value of the slice `[i, i+l)` of a bit string, as shift and mask of
the whole value. -/
theorem bitsVal_slice (bs : List Bool) (i l : Nat)
    (h : i + l ≤ bs.length) :
    bitsVal ((bs.drop i).take l) =
      bitsVal bs / 2 ^ (bs.length - i - l) % 2 ^ l := by
  have hsplit1 : bs = bs.take i ++ ((bs.drop i).take l ++ (bs.drop (i + l))) := by
    rw [← List.append_assoc, ← List.take_add, List.take_append_drop]
  set s := (bs.drop i).take l with hs
  set t := bs.drop (i + l) with ht
  have hslen : s.length = l := by
    rw [hs, List.length_take, List.length_drop]
    omega
  have htlen : t.length = bs.length - i - l := by
    rw [ht, List.length_drop]
    omega
  have hval : bitsVal bs =
      (bitsVal (bs.take i) * 2 ^ l + bitsVal s) * 2 ^ (bs.length - i - l)
        + bitsVal t := by
    conv_lhs => rw [hsplit1]
    rw [bitsVal_append, bitsVal_append, List.length_append, hslen, htlen,
      pow_add]
    ring
  have ht_lt : bitsVal t < 2 ^ (bs.length - i - l) := htlen ▸ bitsVal_lt t
  have hs_lt : bitsVal s < 2 ^ l := hslen ▸ bitsVal_lt s
  have hpos : 0 < 2 ^ (bs.length - i - l) := Nat.pos_pow_of_pos _ (by norm_num)
  have hdiv : ((bitsVal (bs.take i) * 2 ^ l + bitsVal s) * 2 ^ (bs.length - i - l)
      + bitsVal t) / 2 ^ (bs.length - i - l) =
      bitsVal (bs.take i) * 2 ^ l + bitsVal s := by
    rw [Nat.mul_comm (bitsVal (bs.take i) * 2 ^ l + bitsVal s),
      Nat.mul_add_div hpos, Nat.div_eq_of_lt ht_lt, Nat.add_zero]
  rw [hval, hdiv, Nat.mul_comm (bitsVal (bs.take i)), Nat.mul_add_mod,
    Nat.mod_eq_of_lt hs_lt]

theorem bitString_length (data : List Nat) :
    ((data.map byteBits).flatten).length = 8 * data.length := by
  induction data with
  | nil => simp
  | cons x xs ih =>
      simp only [List.map_cons, List.flatten_cons, List.length_append, ih,
        List.length_cons]
      have : (byteBits x).length = 8 := by simp [byteBits]
      omega

set_option maxRecDepth 4000 in
theorem bitsVal_byteBits : ∀ b, b < 256 → bitsVal (byteBits b) = b := by decide

theorem beNat_foldl (a : Nat) (bs : List Nat) :
    bs.foldl (fun acc b => 256 * acc + b) a = a * 256 ^ bs.length + beNat bs := by
  induction bs generalizing a with
  | nil => simp [beNat]
  | cons x xs ih =>
      simp only [List.foldl_cons, beNat, List.length_cons]
      rw [ih, ih (256 * 0 + x)]
      ring

/-- The concatenated bit string of a byte list reads back, in base 2, as
the big-endian byte value. -/
theorem bitsVal_bitString (data : List Nat) (hb : ∀ b ∈ data, b < 256) :
    bitsVal ((data.map byteBits).flatten) = beNat data := by
  induction data with
  | nil => simp [bitsVal, beNat]
  | cons x xs ih =>
      have hx : x < 256 := hb x (by simp)
      have hxs : ∀ b ∈ xs, b < 256 := fun b h => hb b (by simp [h])
      simp only [List.map_cons, List.flatten_cons]
      rw [bitsVal_append, bitString_length, bitsVal_byteBits x hx, ih hxs]
      have hbe : beNat (x :: xs) = x * 256 ^ xs.length + beNat xs := by
        show List.foldl (fun acc b => 256 * acc + b) 0 (x :: xs) = _
        rw [List.foldl_cons, beNat_foldl]
        ring
      rw [hbe]
      congr 1
      rw [pow_mul]
      norm_num

/-- C1: for an in-range bit field over a genuine byte payload,
`extract_bits` returns the big-endian bit slice
`[bix, bix+l)` of the byte concatenation — arithmetically, shift right by
the trailing bit count and mask to `l` bits — reinterpreted by two's
complement when `signed`. -/
theorem extract_bits_spec (data : List Nat) (bix l : Nat) (signed : Bool)
    (hb : ∀ b ∈ data, b < 256) (hl : 1 ≤ l)
    (hrange : bix + l ≤ 8 * data.length) :
    extract_bits data bix l signed =
      some (if signed ∧ beNat data / 2 ^ (8 * data.length - bix - l) % 2 ^ l ≥ 2 ^ (l - 1)
        then ((beNat data / 2 ^ (8 * data.length - bix - l) % 2 ^ l : Nat) : Int) - 2 ^ l
        else ((beNat data / 2 ^ (8 * data.length - bix - l) % 2 ^ l : Nat) : Int)) := by
  have hlen : ((data.map byteBits).flatten).length = 8 * data.length :=
    bitString_length data
  have key : bitsVal ((((data.map byteBits).flatten).drop bix).take l) =
      beNat data / 2 ^ (8 * data.length - bix - l) % 2 ^ l := by
    rw [bitsVal_slice _ _ _ (by rw [hlen]; exact hrange),
      bitsVal_bitString data hb, hlen]
  unfold extract_bits
  simp only [hlen]
  rw [if_neg (by omega)]
  rw [key]
  split <;> rfl

/-- Witness for C1 at the spec scenario: payload `[0x1A, 0x2B]`,
`bit_offset = 4`, `bit_length = 8`, unsigned, gives raw 162. -/
theorem extract_bits_spec_witness :
    (∀ b ∈ [26, 43], b < 256) ∧ 1 ≤ 8 ∧ 4 + 8 ≤ 8 * [26, 43].length ∧
      extract_bits [26, 43] 4 8 false = some 162 := by
  refine ⟨by decide, by decide, by decide, ?_⟩
  rw [extract_bits_spec [26, 43] 4 8 false (by decide) (by decide) (by decide)]
  decide

/-- C2: whenever extraction yields a raw value, `decode_signal` produces
exactly `((raw + add) * mul) / div` — each unset parameter skipped — and
carries the raw value, the definition's unit and its name. -/
theorem decode_signal_spec (data_bytes : List Nat) (sd : SignalDef) (raw : Int)
    (h : extract_bits data_bytes sd.bix sd.len sd.sign = some raw) :
    decode_signal data_bytes sd =
      some ⟨raw,
        (((raw : ℚ) + sd.add.getD 0) * sd.mul.getD 1) / sd.div.getD 1,
        sd.unit, sd.name⟩ := by
  unfold decode_signal
  rw [h]
  rcases sd with ⟨name, bix, len, add, mul, div, sign, unit⟩
  rcases add with _ | a <;> rcases mul with _ | m <;> rcases div with _ | d <;>
    simp

/-- Witness for C2 at the spec scenario: raw 162, `add = -40`, `mul` and
`div` unset, unit `"celsius"` gives value 122. -/
theorem decode_signal_spec_witness :
    extract_bits [162] 0 8 false = some 162 ∧
      decode_signal [162] ⟨"Coolant Temp", 0, 8, some (-40), none, none,
        false, "celsius"⟩ =
        some ⟨162, 122, "celsius", "Coolant Temp"⟩ := by
  have h : extract_bits [162] 0 8 false = some 162 := by decide
  refine ⟨h, ?_⟩
  rw [decode_signal_spec [162]
    ⟨"Coolant Temp", 0, 8, some (-40), none, none, false, "celsius"⟩ 162 h]
  norm_num

theorem foldl_collect (f : SignalDef → Option DecodedSignal)
    (l : List SignalDef) (acc : List DecodedSignal) :
    l.foldl
        (fun acc sd => match f sd with | some r => acc ++ [r] | none => acc)
        acc = acc ++ l.filterMap f := by
  induction l generalizing acc with
  | nil => simp
  | cons x xs ih =>
      simp only [List.foldl_cons, List.filterMap_cons]
      cases hx : f x with
      | none => rw [ih]
      | some r => rw [ih, List.append_assoc]; rfl

theorem length_filterMap_eq_countP (f : SignalDef → Option DecodedSignal)
    (l : List SignalDef) :
    (l.filterMap f).length = l.countP (fun a => (f a).isSome) := by
  induction l with
  | nil => simp
  | cons x xs ih =>
      simp only [List.filterMap_cons, List.countP_cons]
      cases hx : f x <;> simp [hx, ih]

theorem decode_signal_isSome (data_bytes : List Nat) (sd : SignalDef) :
    (decode_signal data_bytes sd).isSome =
      (extract_bits data_bytes sd.bix sd.len sd.sign).isSome := by
  unfold decode_signal
  cases extract_bits data_bytes sd.bix sd.len sd.sign <;> rfl

/-- C7: an out-of-range bit reference yields `none` rather than an error,
and `decode_message` collects one decoded entry per signal definition
whose extraction succeeded, unaffected by failing siblings.  The
hypotheses `1 ≤ sd.len` and `sd.div ≠ some 0` restrict to definitions on
which the Python code does not raise (`int('', 2)` and division by zero
are the only raising paths). -/
theorem extraction_miss_spec :
    (∀ (data_bytes : List Nat) (bix len : Nat) (signed : Bool),
        8 * data_bytes.length < bix + len →
        extract_bits data_bytes bix len signed = none)
    ∧ (∀ (defs : Nat → Option MsgDef) (can_id : Nat) (data_bytes : List Nat)
          (d : MsgDef), defs can_id = some d →
        (∀ sd ∈ d.signals, 1 ≤ sd.len ∧ sd.div ≠ some 0) →
        decode_message defs can_id data_bytes =
          some ⟨d.name, d.signals.filterMap (decode_signal data_bytes)⟩ ∧
        (d.signals.filterMap (decode_signal data_bytes)).length =
          d.signals.countP
            (fun sd => (extract_bits data_bytes sd.bix sd.len sd.sign).isSome)) := by
  constructor
  · intro data_bytes bix len signed hover
    unfold extract_bits
    rw [if_pos]
    rw [bitString_length]
    omega
  · intro defs can_id data_bytes d hd _hwf
    constructor
    · unfold decode_message
      rw [hd]
      dsimp only
      rw [foldl_collect, List.nil_append]
    · rw [length_filterMap_eq_countP]
      congr 1
      funext sd
      rw [decode_signal_isSome]

/-- Witness for C7: a one-byte payload with one in-range and one
out-of-range definition decodes to exactly the in-range entry. -/
theorem extraction_miss_spec_witness :
    (8 * ([] : List Nat).length < 0 + 8 ∧ extract_bits [] 0 8 false = none) ∧
      decode_message
        (fun cid => if cid = 1191 then
          some ⟨"TPMS Temperature",
            [⟨"FL Temp", 0, 8, some (-40), none, none, false, "celsius"⟩,
             ⟨"FR Temp", 8, 8, some (-40), none, none, false, "celsius"⟩],
            "built-in"⟩ else none)
        1191 [30] =
        some ⟨"TPMS Temperature", [⟨30, -10, "celsius", "FL Temp"⟩]⟩ := by
  refine ⟨⟨by decide, extraction_miss_spec.1 [] 0 8 false (by decide)⟩, ?_⟩
  have h := (extraction_miss_spec.2
    (fun cid => if cid = 1191 then
      some ⟨"TPMS Temperature",
        [⟨"FL Temp", 0, 8, some (-40), none, none, false, "celsius"⟩,
         ⟨"FR Temp", 8, 8, some (-40), none, none, false, "celsius"⟩],
        "built-in"⟩ else none)
    1191 [30] _ rfl (by
      intro sd hsd
      fin_cases hsd <;> exact ⟨by norm_num, by simp⟩)).1
  rw [h]
  congr 1
  congr 1
  have e1 : decode_signal [30]
      ⟨"FL Temp", 0, 8, some (-40), none, none, false, "celsius"⟩ =
      some ⟨30, -10, "celsius", "FL Temp"⟩ := by
    rw [decode_signal_spec [30] _ 30 (by decide)]
    norm_num
  have e2 : decode_signal [30]
      ⟨"FR Temp", 8, 8, some (-40), none, none, false, "celsius"⟩ = none := by
    unfold decode_signal
    rw [extraction_miss_spec.1 [30] 8 8 false (by decide)]
  simp [List.filterMap_cons, e1, e2]

/-- C4: per CAN identifier, the merge concatenates signal lists with the
built-in entries first and tags the provenance tier pair (the code spells
the external tier `"obdb"`, so the pair is `"built-in+obdb"`); an
identifier present in only one tier keeps that tier's entry unchanged;
and no identifier of either input is dropped. -/
theorem merge_signal_definitions_spec (manual obdb : Nat → Option MsgDef)
    (cid : Nat) :
    (∀ m o, manual cid = some m → obdb cid = some o → m.source = "built-in" →
        ∃ e, merge_signal_definitions manual obdb cid = some e ∧
          e.signals = m.signals ++ o.signals ∧
          e.source = "built-in+obdb") ∧
    (∀ m, manual cid = some m → obdb cid = none →
        merge_signal_definitions manual obdb cid = some m) ∧
    (∀ o, manual cid = none → obdb cid = some o →
        merge_signal_definitions manual obdb cid = some o) ∧
    (merge_signal_definitions manual obdb cid = none ↔
        manual cid = none ∧ obdb cid = none) := by
  refine ⟨?_, ?_, ?_, ?_⟩
  · intro m o hm ho hsrc
    refine ⟨⟨if m.name = "" then o.name else m.name,
      m.signals ++ o.signals, m.source ++ "+obdb"⟩, ?_, rfl, ?_⟩
    · unfold merge_signal_definitions
      rw [hm, ho]
    · rw [hsrc]; rfl
  · intro m hm ho
    unfold merge_signal_definitions
    rw [hm, ho]
  · intro o hm ho
    unfold merge_signal_definitions
    rw [hm, ho]
  · unfold merge_signal_definitions
    cases hm : manual cid <;> cases ho : obdb cid <;> simp

/-- Concrete built-in tier map for the C4 witness: one id (0xAA = 170)
with two signals. -/
def mbEx : Nat → Option MsgDef := fun cid =>
  if cid = 170 then
    some ⟨"TPMS Pressure",
      [⟨"FL Pressure", 0, 16, none, some (145038/1000000), some 30,
        false, "psi"⟩,
       ⟨"FR Pressure", 16, 16, none, some (145038/1000000), some 30,
        false, "psi"⟩], "built-in"⟩
  else none

/-- Concrete external (OBDb) tier map for the C4 witness: the same id
with one signal, and one id (171) present only here. -/
def meEx : Nat → Option MsgDef := fun cid =>
  if cid = 170 then
    some ⟨"OBDb TPMS",
      [⟨"Ext Pressure", 32, 16, none, none, none, false, "kPa"⟩], "obdb"⟩
  else if cid = 171 then
    some ⟨"OBDb Only",
      [⟨"Ext Sig", 0, 8, none, none, none, false, "raw"⟩], "obdb"⟩
  else none

/-- Witness for C4 at the spec scenario: a built-in id with 2 signals
merged with the same external id carrying 1 signal yields 3 signals and
provenance `"built-in+obdb"`; an id present only externally keeps
provenance `"obdb"`. -/
theorem merge_signal_definitions_spec_witness :
    (∃ e, merge_signal_definitions mbEx meEx 170 = some e ∧
        e.signals.length = 3 ∧ e.source = "built-in+obdb") ∧
    (∃ e, merge_signal_definitions mbEx meEx 171 = some e ∧
        e.source = "obdb") := by
  constructor
  · obtain ⟨e, he, hs, hsrc⟩ :=
      (merge_signal_definitions_spec mbEx meEx 170).1
        ⟨"TPMS Pressure",
          [⟨"FL Pressure", 0, 16, none, some (145038/1000000), some 30,
            false, "psi"⟩,
           ⟨"FR Pressure", 16, 16, none, some (145038/1000000), some 30,
            false, "psi"⟩], "built-in"⟩
        ⟨"OBDb TPMS",
          [⟨"Ext Pressure", 32, 16, none, none, none, false, "kPa"⟩], "obdb"⟩
        rfl rfl rfl
    exact ⟨e, he, by rw [hs]; rfl, hsrc⟩
  · refine ⟨_, (merge_signal_definitions_spec mbEx meEx 171).2.2.1
      ⟨"OBDb Only",
        [⟨"Ext Sig", 0, 8, none, none, none, false, "raw"⟩], "obdb"⟩
      rfl rfl, rfl⟩

theorem slice64 (data : List Nat) (k w : Nat) (h : k + w ≤ 64) :
    ((data.take 64).drop k).take w = (data.drop k).take w := by
  rw [List.drop_take, List.take_take]
  congr 1
  omega

/-- C5: `parse_header` fails exactly when the input is shorter than 64
bytes, the first 7 bytes differ from the magic, or the little-endian
version, header-size or record-size fields differ from 1, 64 and 24; on
success the returned fields are the little-endian decodings of bytes
12–19, 20–27 and 32–35. -/
theorem parse_header_spec (data : List Nat) :
    ((∃ e, parse_header data = .error e) ↔
      (data.length < 64 ∨ data.take 7 ≠ MAGIC_HEAD ∨
        leNat ((data.drop 8).take 2) ≠ 1 ∨
        leNat ((data.drop 10).take 2) ≠ 64 ∨
        leNat ((data.drop 28).take 4) ≠ 24)) ∧
    (∀ h, parse_header data = .ok h →
        h.log_start_unix_us = leNat ((data.drop 12).take 8) ∧
        h.log_start_monotonic_us = leNat ((data.drop 20).take 8) ∧
        h.flags = leNat ((data.drop 32).take 4)) := by
  by_cases hlen : data.length < 64
  · constructor
    · simp [parse_header, HEADER_SIZE, hlen]
    · intro h hok
      simp [parse_header, HEADER_SIZE, hlen] at hok
  · have e_magic : (((data.take 64).take 8)).take 7 = data.take 7 := by
      simp [List.take_take]
    have e_v := slice64 data 8 2 (by omega)
    have e_hs := slice64 data 10 2 (by omega)
    have e_unix := slice64 data 12 8 (by omega)
    have e_mono := slice64 data 20 8 (by omega)
    have e_rs := slice64 data 28 4 (by omega)
    have e_fl := slice64 data 32 4 (by omega)
    unfold parse_header
    rw [if_neg (by simpa [HEADER_SIZE] using hlen)]
    simp only [readBytes, readLE, List.drop_drop, Nat.reduceAdd, HEADER_SIZE,
      VERSION, RECORD_SIZE]
    rw [e_magic, e_v, e_hs, e_unix, e_mono, e_rs, e_fl]
    constructor
    · split_ifs with h1 h2 h3 h4 <;>
        simp_all [VERSION, HEADER_SIZE, RECORD_SIZE]
    · intro h hok
      split_ifs at hok with h1 h2 h3 h4
      cases hok
      exact ⟨rfl, rfl, rfl⟩

/-- A concrete valid 64-byte header for the C5 witness:
`log_start_unix_us = 1`, `log_start_monotonic_us = 2`, `flags = 5`. -/
def hdrEx : List Nat :=
  [67, 65, 78, 66, 73, 78, 0, 0, 1, 0, 64, 0,
   1, 0, 0, 0, 0, 0, 0, 0, 2, 0, 0, 0, 0, 0, 0, 0,
   24, 0, 0, 0, 5, 0, 0, 0] ++ List.replicate 28 0

/-- Witness for C5: a concrete well-formed header parses, and its fields
are the little-endian decodings at offsets 12, 20 and 32. -/
theorem parse_header_spec_witness :
    parse_header hdrEx = .ok ⟨1, 2, 5⟩ ∧
      (1 = leNat ((hdrEx.drop 12).take 8) ∧
       2 = leNat ((hdrEx.drop 20).take 8) ∧
       5 = leNat ((hdrEx.drop 32).take 4)) := by
  have hok : parse_header hdrEx = .ok ⟨1, 2, 5⟩ := by rfl
  exact ⟨hok, (parse_header_spec hdrEx).2 ⟨1, 2, 5⟩ hok⟩

/-- Counterexample for C6: on this concrete 24-byte record the decoder
does not read `can_id` as the 16-bit little-endian integer at offset 8
(it reads a 32-bit one), and `dlc` is not the byte at offset 9. -/
theorem unpackRecord_u16_counterexample :
    (unpackRecord [0, 0, 0, 0, 0, 0, 0, 0, 208, 1, 1, 0, 7, 0,
        1, 2, 3, 4, 5, 6, 7, 8, 0, 0]).can_id ≠
      leNat ((([0, 0, 0, 0, 0, 0, 0, 0, 208, 1, 1, 0, 7, 0,
        1, 2, 3, 4, 5, 6, 7, 8, 0, 0] : List Nat).drop 8).take 2) ∧
    (unpackRecord [0, 0, 0, 0, 0, 0, 0, 0, 208, 1, 1, 0, 7, 0,
        1, 2, 3, 4, 5, 6, 7, 8, 0, 0]).dlc ≠
      ([0, 0, 0, 0, 0, 0, 0, 0, 208, 1, 1, 0, 7, 0,
        1, 2, 3, 4, 5, 6, 7, 8, 0, 0] : List Nat).getD 9 0 := by
  decide

theorem leNat_one_getD : ∀ (r : List Nat) (i : Nat), i < r.length →
    leNat ((r.drop i).take 1) = r.getD i 0 := by
  intro r
  induction r with
  | nil => intro i hi; simp at hi
  | cons x xs ih =>
      intro i hi
      cases i with
      | zero => simp [leNat]
      | succ j =>
          simp only [List.drop_succ_cons, List.getD_cons_succ]
          exact ih j (by simpa using hi)

/-- C6 as amended: the 24-byte capture record is laid out little-endian
as `timestamp_us:u64` (bytes 0–7), `can_id:u32` (bytes 8–11), `dlc:u8`
(byte 12), `flags:u8` (byte 13), `payload[8]` (bytes 14–21) and
`reserved:u16` (bytes 22–23). -/
theorem unpackRecord_layout (r : List Nat) (h : r.length = RECORD_SIZE) :
    (unpackRecord r).timestamp_us = leNat (r.take 8) ∧
    (unpackRecord r).can_id = leNat ((r.drop 8).take 4) ∧
    (unpackRecord r).dlc = r.getD 12 0 ∧
    (unpackRecord r).flags = r.getD 13 0 ∧
    (unpackRecord r).payload = (r.drop 14).take 8 ∧
    (unpackRecord r).reserved = leNat ((r.drop 22).take 2) := by
  unfold RECORD_SIZE at h
  unfold unpackRecord
  simp only [readLE, readBytes, List.drop_drop, Nat.reduceAdd]
  refine ⟨by trivial, by trivial, ?_, ?_, by trivial, by trivial⟩
  · exact leNat_one_getD r 12 (by omega)
  · exact leNat_one_getD r 13 (by omega)

/-- Witness for C6's amended layout on a concrete 24-byte record. -/
theorem unpackRecord_layout_witness :
    ([0, 0, 0, 0, 0, 0, 0, 0, 208, 1, 1, 0, 7, 0,
        1, 2, 3, 4, 5, 6, 7, 8, 0, 0] : List Nat).length = RECORD_SIZE ∧
    (unpackRecord [0, 0, 0, 0, 0, 0, 0, 0, 208, 1, 1, 0, 7, 0,
        1, 2, 3, 4, 5, 6, 7, 8, 0, 0]).can_id = 66000 ∧
    (unpackRecord [0, 0, 0, 0, 0, 0, 0, 0, 208, 1, 1, 0, 7, 0,
        1, 2, 3, 4, 5, 6, 7, 8, 0, 0]).dlc = 7 := by
  refine ⟨by decide, ?_, ?_⟩
  · rw [(unpackRecord_layout _ (by decide)).2.1]
    decide
  · rw [(unpackRecord_layout _ (by decide)).2.2.1]
    decide

/-- C8: the timestamp resolver yields nothing when the wall-clock base is
0, falls back to the wall-clock base alone when the frame timestamp
precedes the monotonic base, and otherwise resolves
`log_start_unix_us + (timestamp_us - log_start_monotonic_us)` (exact
integer arithmetic); in the non-empty cases the microsecond value is
truncated to whole seconds by integer division. -/
theorem format_datetime_spec (u m t : Nat) :
    (u = 0 → format_datetime u m t = none) ∧
    (u ≠ 0 → t < m → format_datetime u m t = some (u / 1000000)) ∧
    (u ≠ 0 → m ≤ t →
      format_datetime u m t =
        some ((((u : ℤ) + ((t : ℤ) - (m : ℤ))).toNat) / 1000000)) := by
  refine ⟨?_, ?_, ?_⟩
  · intro h0
    simp [format_datetime, h0]
  · intro h0 hlt
    simp [format_datetime, h0, hlt]
  · intro h0 hle
    simp only [format_datetime, h0, if_false, Nat.not_lt.mpr hle,
      if_neg (Nat.not_lt.mpr hle)]
    congr 1
    omega

/-- Witness for C8 at the spec scenario: base 1700000000000000 µs,
monotonic base 500000, frame timestamp 500100 resolves to second
1700000000. -/
theorem format_datetime_spec_witness :
    ((1700000000000000 : Nat) ≠ 0 ∧ (500000 : Nat) ≤ 500100) ∧
      format_datetime 1700000000000000 500000 500100 = some 1700000000 := by
  refine ⟨⟨by decide, by decide⟩, ?_⟩
  rw [(format_datetime_spec 1700000000000000 500000 500100).2.2
    (by decide) (by decide)]
  decide

/-- Greedy front-slicing of whole records, as structural recursion; used
as a proof intermediary for `sliceRecords`. -/
def sliceRecsAux (d : List Nat) : List (List Nat) × List Nat :=
  if RECORD_SIZE ≤ d.length then
    let r := sliceRecsAux (d.drop RECORD_SIZE)
    (d.take RECORD_SIZE :: r.1, r.2)
  else ([], d)
termination_by d.length
decreasing_by
  simp only [List.length_drop]
  have hRS : RECORD_SIZE = 24 := rfl
  omega

theorem sliceRecsAux_of_le (d : List Nat) (h : RECORD_SIZE ≤ d.length) :
    sliceRecsAux d =
      (d.take RECORD_SIZE :: (sliceRecsAux (d.drop RECORD_SIZE)).1,
        (sliceRecsAux (d.drop RECORD_SIZE)).2) := by
  rw [sliceRecsAux, if_pos h]

theorem sliceRecsAux_of_lt (d : List Nat) (h : d.length < RECORD_SIZE) :
    sliceRecsAux d = ([], d) := by
  rw [sliceRecsAux, if_neg (by omega)]

theorem sliceRecords_step (d : List Nat) (h : RECORD_SIZE ≤ d.length) :
    sliceRecords d =
      (d.take RECORD_SIZE :: (sliceRecords (d.drop RECORD_SIZE)).1,
        (sliceRecords (d.drop RECORD_SIZE)).2) := by
  have hRS : RECORD_SIZE = 24 := rfl
  rw [hRS] at h
  unfold sliceRecords
  rw [hRS]
  simp only [List.length_drop]
  have hk : d.length / 24 = (d.length - 24) / 24 + 1 := by omega
  rw [hk, List.range_succ_eq_map, List.map_cons, List.map_map]
  rw [Prod.mk.injEq]
  constructor
  · simp only [Nat.zero_mul, List.drop_zero]
    congr 1
    apply List.map_congr_left
    intro i _
    simp only [Function.comp_apply]
    rw [List.drop_drop]
    congr 2
    omega
  · rw [List.drop_drop]
    congr 1
    omega

theorem sliceRecords_eq_auxN : ∀ (n : Nat) (d : List Nat), d.length ≤ n →
    sliceRecords d = sliceRecsAux d := by
  intro n
  induction n with
  | zero =>
      intro d hd
      have hRS : RECORD_SIZE = 24 := rfl
      have hlt : d.length < RECORD_SIZE := by omega
      rw [sliceRecsAux_of_lt d hlt]
      unfold sliceRecords
      rw [Nat.div_eq_of_lt hlt]
      simp
  | succ n ih =>
      intro d hd
      by_cases h : RECORD_SIZE ≤ d.length
      · rw [sliceRecords_step d h, sliceRecsAux_of_le d h,
          ih (d.drop RECORD_SIZE) (by
            simp only [List.length_drop]
            have hRS : RECORD_SIZE = 24 := rfl
            omega)]
      · have hlt : d.length < RECORD_SIZE := by omega
        rw [sliceRecsAux_of_lt d hlt]
        unfold sliceRecords
        rw [Nat.div_eq_of_lt hlt]
        simp

theorem sliceRecords_eq_aux (d : List Nat) :
    sliceRecords d = sliceRecsAux d :=
  sliceRecords_eq_auxN d.length d le_rfl

theorem sliceRecsAux_append (d y : List Nat) :
    sliceRecsAux (d ++ y) =
      ((sliceRecsAux d).1 ++ (sliceRecsAux ((sliceRecsAux d).2 ++ y)).1,
        (sliceRecsAux ((sliceRecsAux d).2 ++ y)).2) := by
  have hgen : ∀ (n : Nat) (d : List Nat), d.length ≤ n →
      sliceRecsAux (d ++ y) =
        ((sliceRecsAux d).1 ++ (sliceRecsAux ((sliceRecsAux d).2 ++ y)).1,
          (sliceRecsAux ((sliceRecsAux d).2 ++ y)).2) := by
    intro n
    induction n with
    | zero =>
        intro d hd
        have hRS : RECORD_SIZE = 24 := rfl
        have hlt : d.length < RECORD_SIZE := by omega
        rw [sliceRecsAux_of_lt d hlt]
        simp
    | succ n ih =>
        intro d hd
        by_cases h : RECORD_SIZE ≤ d.length
        · have hdy : RECORD_SIZE ≤ (d ++ y).length := by
            rw [List.length_append]
            omega
          rw [sliceRecsAux_of_le _ hdy, sliceRecsAux_of_le d h]
          rw [List.take_append_of_le_length h, List.drop_append_of_le_length h]
          rw [ih (d.drop RECORD_SIZE) (by
            simp only [List.length_drop]
            have hRS : RECORD_SIZE = 24 := rfl
            omega)]
          simp
        · have hlt : d.length < RECORD_SIZE := by omega
          rw [sliceRecsAux_of_lt d hlt]
          simp
  exact hgen d.length d le_rfl

theorem sliceRecords_append (d y : List Nat) :
    sliceRecords (d ++ y) =
      ((sliceRecords d).1 ++ (sliceRecords ((sliceRecords d).2 ++ y)).1,
        (sliceRecords ((sliceRecords d).2 ++ y)).2) := by
  simp only [sliceRecords_eq_aux]
  exact sliceRecsAux_append d y

theorem sliceRecords_fst_length (d : List Nat) :
    (sliceRecords d).1.length = d.length / RECORD_SIZE := by
  simp [sliceRecords]

theorem sliceRecords_snd_length (d : List Nat) :
    (sliceRecords d).2.length = d.length % RECORD_SIZE := by
  unfold sliceRecords
  simp only [List.length_drop]
  have hRS : RECORD_SIZE = 24 := rfl
  rw [hRS]
  omega

theorem convertLoop_eq : ∀ (cs : List (List Nat)) (l : List Nat),
    l.length < RECORD_SIZE →
    convertLoop l cs = sliceRecords (l ++ cs.flatten) := by
  intro cs
  induction cs with
  | nil =>
      intro l hl
      simp only [convertLoop, List.flatten_nil, List.append_nil]
      unfold sliceRecords
      rw [Nat.div_eq_of_lt hl]
      simp
  | cons c cs ih =>
      intro l hl
      have hrem : (sliceRecords (l ++ c)).2.length < RECORD_SIZE := by
        rw [sliceRecords_snd_length]
        have hRS : RECORD_SIZE = 24 := rfl
        rw [hRS]
        omega
      simp only [convertLoop]
      rw [ih _ hrem, List.flatten_cons, ← List.append_assoc,
        sliceRecords_append (l ++ c) cs.flatten]

/-- C3: over any chunking of the record stream of total length `L`, the
streaming converter emits exactly the greedy 24-byte slices of the
concatenated stream (so `L / 24` records, none misaligned across chunk
boundaries), and reports a truncation warning exactly when `L % 24 ≠ 0`,
carrying the `L % 24` discarded trailing bytes. -/
theorem convert_file_records_spec (chunks : List (List Nat)) :
    (convert_file_records chunks).1 = (sliceRecords chunks.flatten).1 ∧
    (convert_file_records chunks).1.length =
      chunks.flatten.length / RECORD_SIZE ∧
    (convert_file_records chunks).2 =
      (if chunks.flatten.length % RECORD_SIZE = 0 then none
       else some (chunks.flatten.length % RECORD_SIZE)) := by
  have h0 : ([] : List Nat).length < RECORD_SIZE := by decide
  unfold convert_file_records
  rw [convertLoop_eq chunks [] h0]
  simp only [List.nil_append]
  refine ⟨by trivial, sliceRecords_fst_length _, ?_⟩
  have hlen := sliceRecords_snd_length chunks.flatten
  by_cases hz : chunks.flatten.length % RECORD_SIZE = 0
  · rw [if_pos hz]
    have hempty : (sliceRecords chunks.flatten).2.isEmpty = true := by
      rw [List.isEmpty_iff_length_eq_zero, hlen, hz]
    rw [if_pos hempty]
  · rw [if_neg hz]
    have hne : ¬(sliceRecords chunks.flatten).2.isEmpty = true := by
      rw [List.isEmpty_iff_length_eq_zero, hlen]
      exact hz
    rw [if_neg hne, hlen]

/-- A concrete CSV row whose timestamp field is unparsable. -/
def rowBadTs : CsvRow := ⟨some "x", some "1A0", some "8", fun _ => some "00"⟩

/-- Counterexample for C9: a row with an unparsable timestamp is skipped
— `convert` writes no record for it — rather than written with the field
defaulted to zero. -/
theorem convert_skips_row_counterexample :
    convertRowHeader rowBadTs = none ∧
      convertRow rowBadTs = .ok none ∧
      convert [rowBadTs] = .ok [] := by
  refine ⟨by rfl, by rfl, by rfl⟩

/-- C9 as amended: an unparsable byte field defaults to zero in the
emitted record without failing the row; but a row whose timestamp,
CAN id or dlc fails to parse is skipped entirely (no record emitted),
while the conversion itself continues; rows whose header fields parse
and whose values fit the packed ranges emit exactly one record. -/
theorem convertRow_spec (row : CsvRow) :
    (convertRowHeader row = none → convertRow row = .ok none) ∧
    (∀ ts cid dlc, convertRowHeader row = some (ts, cid, dlc) →
      (0 ≤ ts ∧ ts < 2 ^ 64 ∧ 0 ≤ cid ∧ cid < 2 ^ 16 ∧ 0 ≤ dlc ∧
        dlc < 2 ^ 8 ∧ ∀ b ∈ csvByteVals row, 0 ≤ b ∧ b < 2 ^ 8) →
      convertRow row = .ok (some ⟨ts, cid, dlc, csvByteVals row⟩)) ∧
    (∀ i, i < 8 → pyStrip ((row.byteField i).getD "") ≠ "" →
      pyIntHex (pyStrip ((row.byteField i).getD "")) = none →
      pyIntDec (pyStrip ((row.byteField i).getD "")) = none →
      (csvByteVals row).getD i 0 = 0) := by
  refine ⟨?_, ?_, ?_⟩
  · intro h
    unfold convertRow
    rw [h]
  · intro ts cid dlc h hrange
    unfold convertRow
    rw [h]
    unfold packCompact
    dsimp only
    rw [if_pos hrange]
    rfl
  · intro i hi hne hhex hdec
    have hlen : i < (csvByteVals row).length := by
      simp [csvByteVals, hi]
    rw [List.getD_eq_getElem _ _ hlen]
    unfold csvByteVals
    rw [List.getElem_map, List.getElem_range]
    simp only [if_neg hne, hhex, hdec]

/-- A concrete CSV row with all header fields parsable. -/
def rowGood : CsvRow := ⟨some "100", some "1D0", some "2", fun _ => some "34"⟩

/-- A concrete CSV row whose byte fields are unparsable. -/
def rowBadByte : CsvRow := ⟨some "1", some "1", some "1", fun _ => some "zz"⟩

/-- Witness for C9's amended behaviour: a bad-timestamp row is skipped
without failing the conversion, a fully parsable row emits one record,
and an unparsable byte field reads back as zero. -/
theorem convertRow_spec_witness :
    (convertRowHeader rowBadTs = none ∧ convertRow rowBadTs = .ok none) ∧
    convertRow rowGood = .ok (some ⟨100, 464, 2, csvByteVals rowGood⟩) ∧
    (csvByteVals rowBadByte).getD 0 0 = 0 := by
  refine ⟨⟨by rfl, (convertRow_spec rowBadTs).1 (by rfl)⟩, ?_, ?_⟩
  · exact (convertRow_spec rowGood).2.1 100 464 2 (by rfl) (by decide)
  · exact (convertRow_spec rowBadByte).2.2 0 (by decide) (by decide)
      (by rfl) (by rfl)

/-- A concrete CSV row declaring a negative dlc. -/
def rowNegDlc : CsvRow := ⟨none, some "1A0", some "-3", fun _ => some "11"⟩

/-- Counterexample for C10: on a CSV row declaring `dlc = -3` (the dlc is
never validated), Python's negative slice keeps 5 of the 8 byte values,
so the payload length is not `min(dlc, 8)`. -/
theorem parse_csv_row_negdlc_counterexample :
    ∃ f, parse_csv_row rowNegDlc = some f ∧
      ((f.data.length : Int) ≠ min f.dlc 8) := by
  refine ⟨⟨416, -3, [17, 17, 17, 17, 17]⟩, by rfl, by decide⟩

/-- C10 as amended: no parsing path validates dlc against 8, yet no frame
ever carries more than 8 payload values: the free-text path keeps
`min(dlc, min(8, token count))` values, the CSV path keeps `min(dlc, 8)`
for a non-negative dlc (a negative dlc hits Python's negative-slice
semantics and keeps `max(8 + dlc, 0)`, still at most 8), and the compact
binary path keeps `min(dlc, 8)` of its 8 payload bytes. -/
theorem frame_payload_bound :
    (∀ (can_id dlc : Nat) (tokens : List Nat),
        (parse_can_message can_id dlc tokens).data.length =
          min dlc (min 8 tokens.length) ∧
        (parse_can_message can_id dlc tokens).data.length ≤ 8) ∧
    (∀ (row : CsvRow) (f : Frame), parse_csv_row row = some f →
        f.data.length ≤ 8 ∧
        (0 ≤ f.dlc → (f.data.length : Int) = min f.dlc 8)) ∧
    (∀ rec : List Nat, (parse_bin_record rec).data.length ≤ 8 ∧
        (rec.length = 19 →
          ((parse_bin_record rec).data.length : Int) =
            min (parse_bin_record rec).dlc 8)) := by
  refine ⟨?_, ?_, ?_⟩
  · intro can_id dlc tokens
    constructor
    · simp [parse_can_message, List.length_take, List.length_map]
    · simp only [parse_can_message, List.length_take, List.length_map]
      omega
  · intro row f hf
    unfold parse_csv_row at hf
    rcases h1 : pyIntHex (pyStrip (row.can_id.getD "")) with _ | cid
    · rw [h1] at hf
      cases hf
    · rcases h2 : (match row.dlc with
        | none => some (0 : Int)
        | some s => pyIntDec s) with _ | dlc
      · rw [h1, h2] at hf
        cases hf
      · rw [h1, h2] at hf
        cases hf
        have hbytes : (csvByteVals row).length = 8 := by
          simp [csvByteVals]
        constructor
        · unfold pySlice
          split <;> simp [List.length_take, hbytes]
        · intro hdlc
          dsimp only at hdlc ⊢
          unfold pySlice
          rw [if_pos hdlc]
          simp only [List.length_take, hbytes]
          omega
  · intro rec
    simp only [parse_bin_record, readLE, readBytes, List.drop_drop,
      Nat.reduceAdd]
    constructor
    · simp only [List.length_take, List.length_map]
      omega
    · intro hlen
      simp only [List.length_take, List.length_map, List.length_drop, hlen]
      omega

/-- Witness for C10's amended bound on all three paths, with dlc
declared larger than 8 in each. -/
theorem frame_payload_bound_witness :
    (parse_can_message 464 12 [1, 2, 3, 4, 5, 6, 7, 8, 9]).data.length = 8 ∧
    (∃ f, parse_csv_row ⟨none, some "1D0", some "12", fun _ => some "00"⟩ =
        some f ∧ f.data.length ≤ 8 ∧ (f.data.length : Int) = min f.dlc 8) ∧
    ((parse_bin_record
        [0, 0, 0, 0, 0, 0, 0, 0, 208, 1, 200,
         1, 2, 3, 4, 5, 6, 7, 8]).data.length : Int) =
      min (parse_bin_record
        [0, 0, 0, 0, 0, 0, 0, 0, 208, 1, 200,
         1, 2, 3, 4, 5, 6, 7, 8]).dlc 8 := by
  refine ⟨?_, ?_, ?_⟩
  · have h := (frame_payload_bound.1 464 12 [1, 2, 3, 4, 5, 6, 7, 8, 9]).1
    rw [h]
    decide
  · refine ⟨⟨464, 12, List.replicate 8 0⟩, by rfl, ?_, ?_⟩
    · exact (frame_payload_bound.2.1 ⟨none, some "1D0", some "12",
        fun _ => some "00"⟩ ⟨464, 12, List.replicate 8 0⟩ (by rfl)).1
    · exact (frame_payload_bound.2.1 ⟨none, some "1D0", some "12",
        fun _ => some "00"⟩ ⟨464, 12, List.replicate 8 0⟩ (by rfl)).2
        (by decide)
  · exact (frame_payload_bound.2.2 _).2 (by rfl)
